import Mathlib

/-!
Shallow embedding of the paper-ranking and scoring-recovery core of the
`everyday_my_arxiv` repository (`src/utils/ranking.py` and the response-recovery
part of `src/llm/gemini.py`), together with theorems settling the spec claims.

Modelling conventions:
* A Python paper dict is a `Paper` record: the non-score payload (title, authors,
  abstract, ...) is abstracted into a single `payload` string, and the three
  score entries are `Option ℚ` (`none` models an absent key, `p.get(k, d)`
  becomes `Option.getD`).  Scores are rationals so that the exact arithmetic of
  the statistics averages is representable.
* Python's stable `sorted(papers, key=..., reverse=True)` is embedded as
  insertion sort with the reflexive descending-key relation, which produces the
  unique stable descending ordering that `sorted` is specified to return.
* Raw LLM response text is modelled as a `List Char`; the regex
  `re.search(r"\x7b.*\x7d", text, re.DOTALL)` (greedy, first `{` to last `}`)
  is embedded as `braceSpan`; `json.loads` is an abstract parameter
  `jsonLoads : List Char → Option ScoresDict`, `none` modelling
  `json.JSONDecodeError`.
-/

/-- One paper record.  `payload` stands for all non-score fields of the Python
dict; the three optional scores model the `relevance_score`,
`significance_score`, `combined_score` keys, `none` when the key is absent. -/
structure Paper where
  payload : String
  relevance_score : Option ℚ
  significance_score : Option ℚ
  combined_score : Option ℚ
deriving DecidableEq

/-- `p.get('combined_score', 0)` of `ranking.py`. -/
def sKey (p : Paper) : ℚ := p.combined_score.getD 0

/-- `p.get('relevance_score', 0)` of `ranking.py`. -/
def relKey (p : Paper) : ℚ := p.relevance_score.getD 0

/-- `p.get('significance_score', 0)` of `ranking.py`. -/
def sigKey (p : Paper) : ℚ := p.significance_score.getD 0

/-- The `PaperRanker` object: its only state is the `min_combined_score`
configuration fixed at construction (`__init__`, default 4). -/
structure PaperRanker where
  min_combined_score : ℚ

/-- The descending-key comparison used by
`sorted(papers, key=lambda p: p.get('combined_score', 0), reverse=True)`:
`a` may come before `b` iff `b`'s key does not exceed `a`'s. -/
def rankRel (a b : Paper) : Prop := sKey b ≤ sKey a

instance : DecidableRel rankRel := fun a b =>
  inferInstanceAs (Decidable (sKey b ≤ sKey a))

instance : IsTotal Paper rankRel := ⟨fun a b => le_total (sKey b) (sKey a)⟩

instance : IsTrans Paper rankRel := ⟨fun _ _ _ h1 h2 => le_trans h2 h1⟩

/-- `PaperRanker.rank_papers_by_scores` (`ranking.py`):
`sorted(papers, key=lambda p: p.get('combined_score', 0), reverse=True)`.
Python's `sorted` is a stable sort; with `reverse=True` it returns the unique
permutation that is non-increasing on the key and keeps equal-key records in
input order, which is exactly what insertion sort on `rankRel` computes. -/
def rank_papers_by_scores (papers : List Paper) : List Paper :=
  List.insertionSort rankRel papers

/-- `PaperRanker.filter_by_minimum_score` (`ranking.py`):
`[p for p in papers if p.get('combined_score', 0) >= self.min_combined_score]`. -/
def filter_by_minimum_score (r : PaperRanker) (papers : List Paper) : List Paper :=
  papers.filter (fun p => decide (r.min_combined_score ≤ sKey p))

/-- `sorted(papers) -> new list`: the caller's list after the call paired with
the returned list.  `sorted` allocates a fresh list and the body of
`rank_papers_by_scores` contains no mutating statement, so the caller's list is
returned unchanged as the first component. -/
def rank_papers_by_scores_call (papers : List Paper) : List Paper × List Paper :=
  (papers, rank_papers_by_scores papers)

/-- The key-class of `q`: records whose sort key equals `q`. -/
def keyClass (q : ℚ) : Paper → Bool := fun p => decide (sKey p = q)

lemma keyClass_idem (q : ℚ) (l : List Paper) :
    l.filter (keyClass q) = (l.filter (keyClass q)).filter (keyClass q) := by
  rw [List.filter_filter]
  congr 1
  funext p
  exact (Bool.and_self _).symm

lemma pairwise_rankRel_keyClass (q : ℚ) (l : List Paper) :
    (l.filter (keyClass q)).Pairwise rankRel := by
  apply List.pairwise_of_forall_mem_list
  intro a ha b hb
  have ha' : sKey a = q := of_decide_eq_true (List.mem_filter.mp ha).2
  have hb' : sKey b = q := of_decide_eq_true (List.mem_filter.mp hb).2
  unfold rankRel
  rw [ha', hb']

lemma rank_filter_keyClass (papers : List Paper) (q : ℚ) :
    (rank_papers_by_scores papers).filter (keyClass q) = papers.filter (keyClass q) := by
  have hsub : (papers.filter (keyClass q)).Sublist (rank_papers_by_scores papers) :=
    List.sublist_insertionSort (pairwise_rankRel_keyClass q papers)
      (List.filter_sublist papers)
  have hsub2 : (papers.filter (keyClass q)).Sublist
      ((rank_papers_by_scores papers).filter (keyClass q)) := by
    have := List.Sublist.filter (keyClass q) hsub
    rwa [← keyClass_idem q papers] at this
  have hlen : ((rank_papers_by_scores papers).filter (keyClass q)).length =
      (papers.filter (keyClass q)).length :=
    (List.Perm.filter (keyClass q) (List.perm_insertionSort rankRel papers)).length_eq
  exact (hsub2.eq_of_length hlen.symm).symm

/-- C1: `rank_papers_by_scores` returns a permutation of the input of the same
length, non-increasing on `combined_score` (absent score read as 0), and stable:
for every key value the records carrying it appear in the same relative order
as in the input (no secondary key is consulted). -/
theorem rank_papers_by_scores_spec (papers : List Paper) :
    (rank_papers_by_scores papers).length = papers.length
    ∧ (rank_papers_by_scores papers).Perm papers
    ∧ (rank_papers_by_scores papers).Pairwise (fun a b => sKey b ≤ sKey a)
    ∧ ∀ q : ℚ, (rank_papers_by_scores papers).filter (fun p => decide (sKey p = q))
        = papers.filter (fun p => decide (sKey p = q)) := by
  refine ⟨List.length_insertionSort rankRel papers,
    List.perm_insertionSort rankRel papers,
    List.sorted_insertionSort rankRel papers,
    fun q => rank_filter_keyClass papers q⟩

/-- C3: `filter_by_minimum_score` keeps exactly the records whose
`combined_score` (0 when absent) is at least `min_combined_score`: the result
is an order-preserving sublist of the input, all retained records qualify, and
each record is retained with exactly its input multiplicity iff it qualifies. -/
theorem filter_by_minimum_score_spec (r : PaperRanker) (papers : List Paper) :
    (filter_by_minimum_score r papers).Sublist papers
    ∧ (∀ p ∈ filter_by_minimum_score r papers, r.min_combined_score ≤ sKey p)
    ∧ ∀ p : Paper, (filter_by_minimum_score r papers).count p =
        if r.min_combined_score ≤ sKey p then papers.count p else 0 := by
  refine ⟨List.filter_sublist papers, ?_, ?_⟩
  · intro p hp
    exact of_decide_eq_true (List.mem_filter.mp hp).2
  · intro p
    by_cases h : r.min_combined_score ≤ sKey p
    · rw [if_pos h]
      exact List.count_filter (by simpa using h)
    · rw [if_neg h, List.count_eq_zero]
      intro hmem
      exact h (of_decide_eq_true (List.mem_filter.mp hmem).2)

/-- C9: calling `rank_papers_by_scores` leaves the caller's list unchanged
(first component of the call model) while returning a fresh reordering of the
same records (a permutation of that unchanged input). -/
theorem rank_papers_by_scores_call_spec (papers : List Paper) :
    (rank_papers_by_scores_call papers).1 = papers
    ∧ (rank_papers_by_scores_call papers).2.Perm (rank_papers_by_scores_call papers).1 :=
  ⟨rfl, List.perm_insertionSort rankRel papers⟩

/-- Python list slicing `l[:n]` for an arbitrary integer `n`: for `n ≥ 0` the
first `n` elements; for `n < 0` the first `max(len(l) + n, 0)` elements. -/
def pyTake (n : ℤ) (l : List Paper) : List Paper :=
  if n < 0 then l.take ((l.length + n).toNat) else l.take n.toNat

/-- `PaperRanker.select_top_papers` (`ranking.py`, default `limit = 10`):
filter by minimum score, rank, then return `ranked_papers[:limit]`. -/
def select_top_papers (r : PaperRanker) (papers : List Paper) (limit : ℤ) : List Paper :=
  pyTake limit (rank_papers_by_scores (filter_by_minimum_score r papers))

/-- The statistics dict returned by `PaperRanker.get_selection_stats`. -/
structure SelectionStats where
  total : ℕ
  avg_relevance : ℚ
  avg_significance : ℚ
  avg_combined : ℚ
  high_relevance_count : ℕ
  high_significance_count : ℕ
deriving DecidableEq

/-- `PaperRanker.get_selection_stats` (`ranking.py`): the all-zero dict on empty
input, otherwise means over the full count and the two exact-3 counts. -/
def get_selection_stats (papers : List Paper) : SelectionStats :=
  if papers.isEmpty then
    { total := 0, avg_relevance := 0, avg_significance := 0, avg_combined := 0
      high_relevance_count := 0, high_significance_count := 0 }
  else
    { total := papers.length
      avg_relevance := (papers.map relKey).sum / (papers.length : ℚ)
      avg_significance := (papers.map sigKey).sum / (papers.length : ℚ)
      avg_combined := (papers.map sKey).sum / (papers.length : ℚ)
      high_relevance_count := papers.countP (fun p => decide (relKey p = 3))
      high_significance_count := papers.countP (fun p => decide (sigKey p = 3)) }

/-- A ranker built with the default threshold `min_combined_score = 4`. -/
def rkr4 : PaperRanker := { min_combined_score := 4 }

/-- A concrete qualifying paper with combined score 6. -/
def cp1 : Paper :=
  { payload := "a", relevance_score := none, significance_score := none
    combined_score := some 6 }

/-- A concrete qualifying paper with combined score 5. -/
def cp2 : Paper :=
  { payload := "b", relevance_score := none, significance_score := none
    combined_score := some 5 }

/-- C2 counterexample: the claim "for every limit ≤ 0 the result is empty" is
false: with two qualifying papers and `limit = -1`, Python's `ranked[:limit]`
drops only the last element, so the result is nonempty. -/
theorem select_top_papers_nonpos_limit_counterexample :
    (-1 : ℤ) ≤ 0 ∧ select_top_papers rkr4 [cp1, cp2] (-1) ≠ [] :=
  ⟨by decide, by decide⟩

/-- C2 (amended): `select_top_papers` is filter, then stable rank, then the
Python slice `ranked[:limit]`: for `limit ≥ 0` the first `limit.toNat` ranked
records (all of them, without error, when fewer than `limit` survive); for
`limit = 0` the empty list; and for `limit < 0` the ranked list with its last
`|limit|` records dropped (empty when `|limit|` is at least the survivor
count) — not the empty list for every nonpositive limit. -/
theorem select_top_papers_amended_spec (r : PaperRanker) (papers : List Paper)
    (limit : ℤ) :
    select_top_papers r papers limit
      = pyTake limit (rank_papers_by_scores (filter_by_minimum_score r papers))
    ∧ (0 ≤ limit → select_top_papers r papers limit
      = (rank_papers_by_scores (filter_by_minimum_score r papers)).take limit.toNat)
    ∧ (limit = 0 → select_top_papers r papers limit = [])
    ∧ (((rank_papers_by_scores (filter_by_minimum_score r papers)).length : ℤ) ≤ limit
      → select_top_papers r papers limit
        = rank_papers_by_scores (filter_by_minimum_score r papers))
    ∧ (limit < 0 → select_top_papers r papers limit
      = (rank_papers_by_scores (filter_by_minimum_score r papers)).take
          (((rank_papers_by_scores (filter_by_minimum_score r papers)).length : ℤ)
            + limit).toNat) := by
  refine ⟨rfl, ?_, ?_, ?_, ?_⟩
  · intro h
    unfold select_top_papers pyTake
    rw [if_neg (not_lt.mpr h)]
  · intro h
    subst h
    unfold select_top_papers pyTake
    simp
  · intro h
    have h0 : ¬ limit < 0 := by omega
    unfold select_top_papers pyTake
    rw [if_neg h0]
    apply List.take_of_length_le
    omega
  · intro h
    unfold select_top_papers pyTake
    rw [if_pos h]

/-- C2 witness: at `limit = 0` the selection is empty, and at `limit = -1` it
is the ranked survivors with the last record dropped. -/
theorem select_top_papers_amended_witness :
    select_top_papers rkr4 [cp1, cp2] 0 = []
    ∧ select_top_papers rkr4 [cp1, cp2] (-1)
      = (rank_papers_by_scores (filter_by_minimum_score rkr4 [cp1, cp2])).take
          (((rank_papers_by_scores (filter_by_minimum_score rkr4 [cp1, cp2])).length : ℤ)
            + (-1)).toNat :=
  ⟨(select_top_papers_amended_spec rkr4 [cp1, cp2] 0).2.2.1 rfl,
    (select_top_papers_amended_spec rkr4 [cp1, cp2] (-1)).2.2.2.2 (by decide)⟩

/-- C4: on a nonempty list, `get_selection_stats` reports the full count, the
three field means over the full count (missing fields read as 0), and the
counts of records whose relevance (resp. significance) score is exactly 3. -/
theorem get_selection_stats_spec (papers : List Paper) (h : papers ≠ []) :
    (get_selection_stats papers).total = papers.length
    ∧ (get_selection_stats papers).avg_relevance
      = (papers.map relKey).sum / (papers.length : ℚ)
    ∧ (get_selection_stats papers).avg_significance
      = (papers.map sigKey).sum / (papers.length : ℚ)
    ∧ (get_selection_stats papers).avg_combined
      = (papers.map sKey).sum / (papers.length : ℚ)
    ∧ (get_selection_stats papers).high_relevance_count
      = papers.countP (fun p => decide (relKey p = 3))
    ∧ (get_selection_stats papers).high_significance_count
      = papers.countP (fun p => decide (sigKey p = 3)) := by
  have hempty : papers.isEmpty = false := by
    simpa [List.isEmpty_iff] using h
  refine ⟨?_, ?_, ?_, ?_, ?_, ?_⟩ <;>
    simp [get_selection_stats, hempty]

/-- A concrete paper matching the spec example `{relevance=3, significance=3,
combined=6}`. -/
def sp1 : Paper :=
  { payload := "p1", relevance_score := some 3, significance_score := some 3
    combined_score := some 6 }

/-- A concrete paper matching the spec example `{relevance=1, significance=1,
combined=2}`. -/
def sp2 : Paper :=
  { payload := "p2", relevance_score := some 1, significance_score := some 1
    combined_score := some 2 }

/-- C4 witness: the spec's worked example, `avg_relevance = 2` and
`high_relevance_count = 1` on the two-paper list. -/
theorem get_selection_stats_witness :
    (([sp1, sp2] : List Paper) ≠ [])
    ∧ (get_selection_stats [sp1, sp2]).total = 2
    ∧ (get_selection_stats [sp1, sp2]).avg_relevance = 2
    ∧ (get_selection_stats [sp1, sp2]).high_relevance_count = 1 := by
  have h := get_selection_stats_spec [sp1, sp2] (by decide)
  refine ⟨by decide, ?_, ?_, ?_⟩
  · rw [h.1]
    decide
  · rw [h.2.1]
    simp [sp1, sp2, relKey]
    norm_num
  · rw [h.2.2.2.2.1]
    decide

/-- C5: on the empty list `get_selection_stats` takes the early-return branch,
so every field of the result is 0 and the division by the record count is never
reached. -/
theorem get_selection_stats_empty :
    get_selection_stats [] =
      { total := 0, avg_relevance := 0, avg_significance := 0, avg_combined := 0
        high_relevance_count := 0, high_significance_count := 0 } :=
  rfl

/-- Index of the first character satisfying `p`, if any. -/
def firstIdx (p : Char → Bool) : List Char → Option Nat
  | [] => none
  | c :: cs => if p c then some 0 else (firstIdx p cs).map (fun k => k + 1)

/-- Index of the last character satisfying `p`, if any. -/
def lastIdx (p : Char → Bool) : List Char → Option Nat
  | [] => none
  | c :: cs =>
    match lastIdx p cs with
    | some k => some (k + 1)
    | none => if p c then some 0 else none

/-- Test for an opening brace character. -/
def isOpenBrace (c : Char) : Bool := c == '{'

/-- Test for a closing brace character. -/
def isCloseBrace (c : Char) : Bool := c == '}'

/-- The span matched by the greedy DOTALL regex search of
`score_paper_relevance` (`gemini.py`): from the first opening brace to the last
closing brace, provided the latter comes strictly after the former; `none` when
no such span exists. -/
def braceSpan (text : List Char) : Option (List Char) :=
  match firstIdx isOpenBrace text with
  | none => none
  | some i =>
    match lastIdx isCloseBrace text with
    | none => none
    | some j => if i < j then some ((text.drop i).take (j + 1 - i)) else none

theorem firstIdx_mem {p : Char → Bool} {cs : List Char} {i : Nat}
    (h : firstIdx p cs = some i) : ∃ c, cs[i]? = some c ∧ p c = true := by
  induction cs generalizing i with
  | nil => simp [firstIdx] at h
  | cons c cs ih =>
    by_cases hpc : p c
    · simp [firstIdx, hpc] at h
      exact h ▸ ⟨c, by simp, hpc⟩
    · simp [firstIdx, hpc, Option.map_eq_some'] at h
      obtain ⟨k, hk, rfl⟩ := h
      obtain ⟨d, hd, hpd⟩ := ih hk
      exact ⟨d, by simpa using hd, hpd⟩

theorem firstIdx_min {p : Char → Bool} {cs : List Char} {i : Nat}
    (h : firstIdx p cs = some i) :
    ∀ k, k < i → ∀ c, cs[k]? = some c → p c = false := by
  induction cs generalizing i with
  | nil => simp [firstIdx] at h
  | cons c cs ih =>
    by_cases hpc : p c
    · simp [firstIdx, hpc] at h
      omega
    · simp [firstIdx, hpc, Option.map_eq_some'] at h
      obtain ⟨m, hm, rfl⟩ := h
      intro k hk d hd
      cases k with
      | zero =>
        simp at hd
        rw [Bool.not_eq_true] at hpc
        exact hd ▸ hpc
      | succ k' =>
        exact ih hm k' (by omega) d (by simpa using hd)

theorem firstIdx_none {p : Char → Bool} {cs : List Char}
    (h : firstIdx p cs = none) :
    ∀ (k : Nat) (c : Char), cs[k]? = some c → p c = false := by
  induction cs with
  | nil =>
    intro k c hc
    simp at hc
  | cons c cs ih =>
    by_cases hpc : p c
    · simp [firstIdx, hpc] at h
    · simp [firstIdx, hpc, Option.map_eq_none'] at h
      intro k d hd
      cases k with
      | zero =>
        simp at hd
        rw [Bool.not_eq_true] at hpc
        exact hd ▸ hpc
      | succ k' =>
        exact ih h k' d (by simpa using hd)

theorem lastIdx_mem {p : Char → Bool} {cs : List Char} {i : Nat}
    (h : lastIdx p cs = some i) : ∃ c, cs[i]? = some c ∧ p c = true := by
  induction cs generalizing i with
  | nil => simp [lastIdx] at h
  | cons c cs ih =>
    cases hcs : lastIdx p cs with
    | some k =>
      simp [lastIdx, hcs] at h
      obtain ⟨d, hd, hpd⟩ := ih hcs
      exact h ▸ ⟨d, by simpa using hd, hpd⟩
    | none =>
      by_cases hpc : p c
      · simp [lastIdx, hcs, hpc] at h
        exact h ▸ ⟨c, by simp, hpc⟩
      · simp [lastIdx, hcs, hpc] at h

theorem lastIdx_none {p : Char → Bool} {cs : List Char}
    (h : lastIdx p cs = none) :
    ∀ (k : Nat) (c : Char), cs[k]? = some c → p c = false := by
  induction cs with
  | nil =>
    intro k c hc
    simp at hc
  | cons c cs ih =>
    cases hcs : lastIdx p cs with
    | some k => simp [lastIdx, hcs] at h
    | none =>
      by_cases hpc : p c
      · simp [lastIdx, hcs, hpc] at h
      · intro k d hd
        cases k with
        | zero =>
          simp at hd
          rw [Bool.not_eq_true] at hpc
          exact hd ▸ hpc
        | succ k' =>
          exact ih hcs k' d (by simpa using hd)

theorem lastIdx_max {p : Char → Bool} {cs : List Char} {i : Nat}
    (h : lastIdx p cs = some i) :
    ∀ k, i < k → ∀ c, cs[k]? = some c → p c = false := by
  induction cs generalizing i with
  | nil => simp [lastIdx] at h
  | cons c cs ih =>
    cases hcs : lastIdx p cs with
    | some m =>
      simp [lastIdx, hcs] at h
      intro k hk d hd
      cases k with
      | zero => omega
      | succ k' =>
        exact ih hcs k' (by omega) d (by simpa using hd)
    | none =>
      by_cases hpc : p c
      · simp [lastIdx, hcs, hpc] at h
        intro k hk d hd
        cases k with
        | zero => omega
        | succ k' =>
          exact lastIdx_none hcs k' d (by simpa using hd)
      · simp [lastIdx, hcs, hpc] at h

theorem firstIdx_le_of_mem {p : Char → Bool} {cs : List Char} {i : Nat} {c : Char}
    (hc : cs[i]? = some c) (hp : p c = true) :
    ∃ i0, firstIdx p cs = some i0 ∧ i0 ≤ i := by
  cases h0 : firstIdx p cs with
  | none =>
    have := firstIdx_none h0 i c hc
    rw [hp] at this
    exact Bool.noConfusion this
  | some i0 =>
    refine ⟨i0, rfl, ?_⟩
    by_contra hlt
    have := firstIdx_min h0 i (by omega) c hc
    rw [hp] at this
    exact Bool.noConfusion this

theorem lastIdx_ge_of_mem {p : Char → Bool} {cs : List Char} {j : Nat} {c : Char}
    (hc : cs[j]? = some c) (hp : p c = true) :
    ∃ j0, lastIdx p cs = some j0 ∧ j ≤ j0 := by
  cases h1 : lastIdx p cs with
  | none =>
    have := lastIdx_none h1 j c hc
    rw [hp] at this
    exact Bool.noConfusion this
  | some j0 =>
    refine ⟨j0, rfl, ?_⟩
    by_contra hlt
    have := lastIdx_max h1 j (by omega) c hc
    rw [hp] at this
    exact Bool.noConfusion this

lemma braceSpan_eq_some {text : List Char} {i j : Nat}
    (h0 : firstIdx isOpenBrace text = some i)
    (h1 : lastIdx isCloseBrace text = some j) (hij : i < j) :
    braceSpan text = some ((text.drop i).take (j + 1 - i)) := by
  simp only [braceSpan, h0, h1, if_pos hij]

/-- The dict returned by `score_paper_relevance` (`gemini.py`): the three score
keys, the `error` key, and the `raw_response` key, each `none` when absent.  A
successfully parsed JSON object is modelled by its projection onto these keys
(a key the parse did not produce is `none`). -/
structure ScoresDict where
  relevance_score : Option ℚ
  significance_score : Option ℚ
  combined_score : Option ℚ
  error : Option String
  raw_response : Option (List Char)
deriving DecidableEq

/-- The structured failure returned when no brace-delimited span exists:
`{"error": "No valid JSON found in scoring", "raw_response": response}` (the
response is modelled by its text). -/
def noJsonError (text : List Char) : ScoresDict :=
  { relevance_score := none, significance_score := none, combined_score := none
    error := some "No valid JSON found in scoring", raw_response := some text }

/-- The fixed degraded fallback returned on `json.JSONDecodeError`:
`{"relevance_score": 1, "significance_score": 1, "combined_score": 2}`. -/
def degradedScores : ScoresDict :=
  { relevance_score := some 1, significance_score := some 1
    combined_score := some 2, error := none, raw_response := none }

/-- The response-recovery portion of `GeminiClient.score_paper_relevance`
(`gemini.py`): search for the greedy brace span; if found, parse it with
`jsonLoads` and return the parsed dict, falling back to `degradedScores` when
parsing fails; if no span exists, return the structured `noJsonError` failure.
`jsonLoads` abstracts `json.loads`, with `none` modelling
`json.JSONDecodeError`. -/
def score_paper_relevance (jsonLoads : List Char → Option ScoresDict)
    (text : List Char) : ScoresDict :=
  match braceSpan text with
  | some json_str =>
    match jsonLoads json_str with
    | some result => result
    | none => degradedScores
  | none => noJsonError text

lemma braceSpan_eq_none {text : List Char}
    (h : ∀ i, i < text.length → ∀ j, j < text.length → i < j →
      ¬(text[i]? = some '{' ∧ text[j]? = some '}')) :
    braceSpan text = none := by
  cases h0 : firstIdx isOpenBrace text with
  | none => simp [braceSpan, h0]
  | some i =>
    cases h1 : lastIdx isCloseBrace text with
    | none => simp [braceSpan, h0, h1]
    | some j =>
      by_cases hij : i < j
      · exfalso
        obtain ⟨c, hc, hpc⟩ := firstIdx_mem h0
        obtain ⟨d, hd, hpd⟩ := lastIdx_mem h1
        have hceq : c = '{' := by simpa [isOpenBrace] using hpc
        have hdeq : d = '}' := by simpa [isCloseBrace] using hpd
        subst hceq hdeq
        have hi : i < text.length := by
          by_contra hni
          push_neg at hni
          simp [List.getElem?_eq_none hni] at hc
        have hj : j < text.length := by
          by_contra hnj
          push_neg at hnj
          simp [List.getElem?_eq_none hnj] at hd
        exact h i hi j hj hij ⟨hc, hd⟩
      · simp [braceSpan, h0, h1, hij]

lemma score_paper_relevance_of_span_none
    {jsonLoads : List Char → Option ScoresDict} {text : List Char}
    (h : braceSpan text = none) :
    score_paper_relevance jsonLoads text = noJsonError text := by
  simp [score_paper_relevance, h]

/-- C6: whenever the response text has an opening brace strictly before some
closing brace, the recovery step locates the greedy span running from the very
first opening brace to the very last closing brace (prose on either side is
dropped), and if that span parses, the parsed structure is returned as is. -/
theorem score_paper_relevance_extracts_span
    (jsonLoads : List Char → Option ScoresDict) (text : List Char) (i j : Nat)
    (hij : i < j) (hi : text[i]? = some '{') (hj : text[j]? = some '}') :
    ∃ i0 j0, i0 ≤ i ∧ j ≤ j0
      ∧ text[i0]? = some '{'
      ∧ (∀ (k : Nat) (c : Char), k < i0 → text[k]? = some c → c ≠ '{')
      ∧ text[j0]? = some '}'
      ∧ (∀ (k : Nat) (c : Char), j0 < k → text[k]? = some c → c ≠ '}')
      ∧ braceSpan text = some ((text.drop i0).take (j0 + 1 - i0))
      ∧ ∀ result, jsonLoads ((text.drop i0).take (j0 + 1 - i0)) = some result →
          score_paper_relevance jsonLoads text = result := by
  obtain ⟨i0, h0, hi0⟩ := @firstIdx_le_of_mem isOpenBrace text i _ hi (by decide)
  obtain ⟨j0, h1, hj0⟩ := @lastIdx_ge_of_mem isCloseBrace text j _ hj (by decide)
  have hij0 : i0 < j0 := by omega
  have hspan := braceSpan_eq_some h0 h1 hij0
  obtain ⟨c, hc, hpc⟩ := firstIdx_mem h0
  have hceq : c = '{' := by simpa [isOpenBrace] using hpc
  subst hceq
  obtain ⟨d, hd, hpd⟩ := lastIdx_mem h1
  have hdeq : d = '}' := by simpa [isCloseBrace] using hpd
  subst hdeq
  refine ⟨i0, j0, hi0, hj0, hc, ?_, hd, ?_, hspan, ?_⟩
  · intro k c hk hkc heq
    subst heq
    have := firstIdx_min h0 k hk _ hkc
    simp [isOpenBrace] at this
  · intro k c hk hkc heq
    subst heq
    have := lastIdx_max h1 k hk _ hkc
    simp [isCloseBrace] at this
  · intro result hres
    simp [score_paper_relevance, hspan, hres]

/-- C7: when no opening brace precedes any closing brace, the recovery step
returns the structured failure dict: no score fields, the fixed error message,
and the raw response text attached for diagnostics — in particular the result
is not the degraded default. -/
theorem score_paper_relevance_no_span_spec
    (jsonLoads : List Char → Option ScoresDict) (text : List Char)
    (h : ∀ i, i < text.length → ∀ j, j < text.length → i < j →
      ¬(text[i]? = some '{' ∧ text[j]? = some '}')) :
    score_paper_relevance jsonLoads text = noJsonError text
    ∧ (score_paper_relevance jsonLoads text).raw_response = some text
    ∧ (score_paper_relevance jsonLoads text).error
        = some "No valid JSON found in scoring"
    ∧ score_paper_relevance jsonLoads text ≠ degradedScores := by
  have heq : score_paper_relevance jsonLoads text = noJsonError text :=
    score_paper_relevance_of_span_none (braceSpan_eq_none h)
  refine ⟨heq, by rw [heq]; rfl, by rw [heq]; rfl,
    by rw [heq]; simp [noJsonError, degradedScores]⟩

/-- C8: when a brace-delimited span exists but fails to parse, the recovery
step returns exactly the fixed degraded dict `relevance_score = 1`,
`significance_score = 1`, `combined_score = 2`, and no error escapes. -/
theorem score_paper_relevance_invalid_json_spec
    (jsonLoads : List Char → Option ScoresDict) (text span : List Char)
    (hspan : braceSpan text = some span) (hfail : jsonLoads span = none) :
    score_paper_relevance jsonLoads text = degradedScores
    ∧ (score_paper_relevance jsonLoads text).relevance_score = some 1
    ∧ (score_paper_relevance jsonLoads text).significance_score = some 1
    ∧ (score_paper_relevance jsonLoads text).combined_score = some 2 := by
  have heq : score_paper_relevance jsonLoads text = degradedScores := by
    simp [score_paper_relevance, hspan, hfail]
  exact ⟨heq, by rw [heq]; rfl, by rw [heq]; rfl, by rw [heq]; rfl⟩

/-- A demo response text `a {x} b`: prose around a single brace span. -/
def demoText : List Char := ['a', ' ', '{', 'x', '}', ' ', 'b']

/-- A demo parse result carrying scores 3, 2, 5. -/
def demoParsed : ScoresDict :=
  { relevance_score := some 3, significance_score := some 2
    combined_score := some 5, error := none, raw_response := none }

/-- A demo parser recognising exactly the span of `demoText`. -/
def demoLoads : List Char → Option ScoresDict :=
  fun s => if s = ['{', 'x', '}'] then some demoParsed else none

/-- C6 witness: on `demoText` the recovery step extracts the span from the
first `{` (index 2) to the last `}` (index 4) and returns the parsed scores. -/
theorem score_paper_relevance_extracts_span_witness :
    ∃ i0 j0, i0 ≤ 2 ∧ 4 ≤ j0
      ∧ demoText[i0]? = some '{'
      ∧ (∀ (k : Nat) (c : Char), k < i0 → demoText[k]? = some c → c ≠ '{')
      ∧ demoText[j0]? = some '}'
      ∧ (∀ (k : Nat) (c : Char), j0 < k → demoText[k]? = some c → c ≠ '}')
      ∧ braceSpan demoText = some ((demoText.drop i0).take (j0 + 1 - i0))
      ∧ ∀ result, demoLoads ((demoText.drop i0).take (j0 + 1 - i0)) = some result →
          score_paper_relevance demoLoads demoText = result :=
  score_paper_relevance_extracts_span demoLoads demoText 2 4 (by decide)
    (by decide) (by decide)

/-- A demo response text with no brace span at all. -/
def noJsonText : List Char := ['n', 'o', ' ', 'j', 's', 'o', 'n']

/-- C7 witness: on the brace-free `noJsonText` the recovery step returns the
structured failure carrying the raw text, not the degraded default. -/
theorem score_paper_relevance_no_span_witness :
    score_paper_relevance demoLoads noJsonText = noJsonError noJsonText
    ∧ (score_paper_relevance demoLoads noJsonText).raw_response = some noJsonText
    ∧ (score_paper_relevance demoLoads noJsonText).error
        = some "No valid JSON found in scoring"
    ∧ score_paper_relevance demoLoads noJsonText ≠ degradedScores :=
  score_paper_relevance_no_span_spec demoLoads noJsonText (by decide)

/-- A demo response text whose brace span is not valid JSON. -/
def badJsonText : List Char := ['{', 'b', 'a', 'd', '}']

/-- A demo parser on which every span fails to parse. -/
def failLoads : List Char → Option ScoresDict := fun _ => none

/-- C8 witness: on `badJsonText` with a failing parser the recovery step
returns exactly the degraded `1, 1, 2` scores. -/
theorem score_paper_relevance_invalid_json_witness :
    score_paper_relevance failLoads badJsonText = degradedScores
    ∧ (score_paper_relevance failLoads badJsonText).relevance_score = some 1
    ∧ (score_paper_relevance failLoads badJsonText).significance_score = some 1
    ∧ (score_paper_relevance failLoads badJsonText).combined_score = some 2 :=
  score_paper_relevance_invalid_json_spec failLoads badJsonText
    ['{', 'b', 'a', 'd', '}'] (by decide) rfl

/-- The batch decomposition of `batch_score_papers` (`gemini.py`):
`papers[i:i+batch_size]` for `i in range(0, len(papers), batch_size)`.  The
recursion follows that loop; the `0, _ :: _` case is unreachable in the code
(Python's `range` rejects step 0). -/
def chunks : Nat → List Paper → List (List Paper)
  | _, [] => []
  | 0, _ :: _ => []
  | b + 1, x :: xs => ((x :: xs).take (b + 1)) :: chunks (b + 1) (xs.drop b)
termination_by _ l => l.length
decreasing_by
  simp only [List.length_drop, List.length_cons]
  omega

/-- The per-paper mutation of the batch loop (`gemini.py`):
`paper['relevance_score'] = scores.get('relevance_score', 1)` and likewise for
significance (default 1) and combined (default 2), where `scores` is the
per-paper result of `score_paper_relevance`. -/
def attach_scores (scoreFn : Paper → ScoresDict) (p : Paper) : Paper :=
  { p with relevance_score := some ((scoreFn p).relevance_score.getD 1)
           significance_score := some ((scoreFn p).significance_score.getD 1)
           combined_score := some ((scoreFn p).combined_score.getD 2) }

/-- `GeminiClient.batch_score_papers` (`gemini.py`): iterate over the batches,
score each paper of the batch, mutate it with the three (defaulted) scores and
append it to the accumulated `scored_papers` list.  The per-paper scoring call
is abstracted as `scoreFn`. -/
def batch_score_papers (scoreFn : Paper → ScoresDict) (batch_size : Nat)
    (papers : List Paper) : List Paper :=
  (chunks batch_size papers).foldl
    (fun scored_papers batch => scored_papers ++ batch.map (attach_scores scoreFn))
    []

lemma foldl_append_map_eq_flatten (f : Paper → Paper) (acc : List Paper)
    (L : List (List Paper)) :
    L.foldl (fun s b => s ++ b.map f) acc = acc ++ (L.map (List.map f)).flatten := by
  induction L generalizing acc with
  | nil => simp
  | cons b L ih => simp [ih, List.append_assoc]

lemma chunks_flatten (b : Nat) (l : List Paper) :
    (chunks (b + 1) l).flatten = l := by
  have H : ∀ (n : Nat) (l : List Paper), l.length ≤ n →
      (chunks (b + 1) l).flatten = l := by
    intro n
    induction n with
    | zero =>
      intro l hl
      have hnil : l = [] := List.length_eq_zero.mp (Nat.le_zero.mp hl)
      subst hnil
      simp [chunks]
    | succ n ih =>
      intro l hl
      cases l with
      | nil => simp [chunks]
      | cons x xs =>
        have hrec : ((xs.drop b).length ≤ n) := by
          simp only [List.length_drop]
          simp only [List.length_cons] at hl
          omega
        simp only [chunks, List.flatten_cons, ih (xs.drop b) hrec,
          List.take_succ_cons]
        rw [List.cons_append, List.take_append_drop]
  exact H l.length l le_rfl

lemma batch_score_papers_eq_map (scoreFn : Paper → ScoresDict) (b : Nat)
    (papers : List Paper) :
    batch_score_papers scoreFn (b + 1) papers = papers.map (attach_scores scoreFn) := by
  unfold batch_score_papers
  rw [foldl_append_map_eq_flatten, ← List.map_flatten, chunks_flatten]
  simp

/-- C10: whenever the batch size is positive (Python's `range` requires this),
`batch_score_papers` returns the input papers in order — same length, same
order, same non-score payloads — each updated in place with
`scores.get('relevance_score', 1)`, `scores.get('significance_score', 1)`,
`scores.get('combined_score', 2)`; a per-paper structured failure (the
`noJsonError` dict, which carries no score keys) is thereby absorbed into the
degraded `1, 1, 2` scores instead of being surfaced. -/
theorem batch_score_papers_spec (scoreFn : Paper → ScoresDict) (batch_size : Nat)
    (papers : List Paper) (hbs : 0 < batch_size) :
    batch_score_papers scoreFn batch_size papers = papers.map (attach_scores scoreFn)
    ∧ (batch_score_papers scoreFn batch_size papers).length = papers.length
    ∧ (batch_score_papers scoreFn batch_size papers).map Paper.payload
      = papers.map Paper.payload
    ∧ ∀ (p : Paper) (t : List Char), scoreFn p = noJsonError t →
        attach_scores scoreFn p =
          { p with relevance_score := some 1, significance_score := some 1
                   combined_score := some 2 } := by
  obtain ⟨b, rfl⟩ : ∃ b, batch_size = b + 1 := ⟨batch_size - 1, by omega⟩
  have hmap := batch_score_papers_eq_map scoreFn b papers
  refine ⟨hmap, by rw [hmap]; simp, ?_, ?_⟩
  · rw [hmap, List.map_map]
    rfl
  · intro p t h
    unfold attach_scores
    rw [h]
    rfl

/-- A scorer whose every call yields the structured no-JSON failure. -/
def failScoreFn : Paper → ScoresDict := fun _ => noJsonError ['n', 'o']

/-- C10 witness: with the default batch size 16 and an always-failing scorer,
the batch result is the ordered map of the per-paper update, and the failure is
absorbed as the degraded `1, 1, 2` scores. -/
theorem batch_score_papers_witness :
    (0 : Nat) < 16
    ∧ batch_score_papers failScoreFn 16 [cp1, cp2]
      = [cp1, cp2].map (attach_scores failScoreFn)
    ∧ attach_scores failScoreFn cp1 =
        { cp1 with relevance_score := some 1, significance_score := some 1
                   combined_score := some 2 } := by
  have h := batch_score_papers_spec failScoreFn 16 [cp1, cp2] (by decide)
  exact ⟨by decide, h.1, h.2.2.2 cp1 ['n', 'o'] rfl⟩
